import Mathlib

/-!
Verification of the creators-file-manager UI layer (src/App.tsx, src/api.ts,
src/types.ts) against its natural-language specification.

The TypeScript source is shallowly embedded: pure helpers become Lean
functions on `String` / `List Char`, React component state becomes explicit
state records, event handlers become state-transition functions that also
return the list of IPC requests they issue, and `throw` becomes
`Except.error`.  JavaScript semantics are modelled at the ASCII level
(`toLowerCase`, `trim`, regex splitting); Unicode-only behaviours are out of
scope and noted where relevant.
-/

namespace CFM

/-! ## JavaScript string primitives -/

/-- ASCII model of the characters matched by JS `String.prototype.trim` and
the regex class `\s` (space, tab, newline, carriage return, vertical tab,
form feed). -/
def isJsSpace (c : Char) : Bool :=
  c = ' ' || c = '\t' || c = '\n' || c = '\r' || c = '\x0b' || c = '\x0c'

/-- Model of JS `trim`: drop leading and trailing whitespace. -/
def jsTrim (cs : List Char) : List Char :=
  ((cs.dropWhile isJsSpace).reverse.dropWhile isJsSpace).reverse

/-- `trim` lifted to `String`. -/
def jsTrimStr (s : String) : String := String.mk (jsTrim s.data)

/-- The ASCII uppercase letters paired with their lowercase forms, used to
model JS `toLowerCase` (which the source only ever applies to extension
tokens and names). -/
def asciiUpperLower : List (Char × Char) :=
  [('A', 'a'), ('B', 'b'), ('C', 'c'), ('D', 'd'), ('E', 'e'), ('F', 'f'),
   ('G', 'g'), ('H', 'h'), ('I', 'i'), ('J', 'j'), ('K', 'k'), ('L', 'l'),
   ('M', 'm'), ('N', 'n'), ('O', 'o'), ('P', 'p'), ('Q', 'q'), ('R', 'r'),
   ('S', 's'), ('T', 't'), ('U', 'u'), ('V', 'v'), ('W', 'w'), ('X', 'x'),
   ('Y', 'y'), ('Z', 'z')]

/-- ASCII model of JS `toLowerCase` on a single character. -/
def jsToLowerChar (c : Char) : Char :=
  match asciiUpperLower.find? (fun p => p.1 = c) with
  | some p => p.2
  | none => c

/-- A character is an ASCII uppercase letter. -/
def isAsciiUpper (c : Char) : Bool :=
  decide (c ∈ asciiUpperLower.map Prod.fst)

/-! ## parsePaths (App.tsx lines 163-167)

`value.split(/\r?\n|,/g).map(s => s.trim()).filter(Boolean)`.
The splitter breaks at `,`, at `\n`, and treats `\r\n` as a single
separator (a lone `\r` is not a separator, exactly as in the regex). -/

/-- Prepend a character to the first chunk of a split result. -/
def consHead (c : Char) : List (List Char) → List (List Char)
  | [] => [[c]]
  | t :: ts => (c :: t) :: ts

/-- Split on the separators of the regex `\r?\n|,`. -/
def splitPathSeps : List Char → List (List Char)
  | [] => [[]]
  | ',' :: rest => [] :: splitPathSeps rest
  | '\n' :: rest => [] :: splitPathSeps rest
  | '\r' :: '\n' :: rest => [] :: splitPathSeps rest
  | c :: rest => consHead c (splitPathSeps rest)

/-- `parsePaths` from App.tsx: split the textarea contents into trimmed,
non-empty path entries. -/
def parsePaths (value : String) : List String :=
  ((((splitPathSeps value.data).map jsTrim).filter (fun t => t ≠ [])).map
    fun t => String.mk t)

/-! ## parseExts (App.tsx lines 169-173)

`value.split(/[\r\n,\s]+/g).map(s => s.trim().replace(/^\./, "").toLowerCase()).filter(Boolean)`.
The separator class is whitespace or comma.  Splitting on a run (`+`) rather
than on single characters only changes empty intermediate tokens, which the
final `filter(Boolean)` removes either way, so the model splits on single
separator characters. -/

/-- A separator character of the regex class `[\r\n,\s]`. -/
def isExtSep (c : Char) : Bool := isJsSpace c || c = ','

/-- Split on single extension-separator characters. -/
def splitExtSeps : List Char → List (List Char)
  | [] => [[]]
  | c :: rest =>
    if isExtSep c then [] :: splitExtSeps rest
    else consHead c (splitExtSeps rest)

/-- Model of `replace(/^\./, "")`: remove one leading dot if present. -/
def dropOneLeadingDot : List Char → List Char
  | '.' :: cs => cs
  | cs => cs

/-- `parseExts` from App.tsx: split, trim, strip one leading dot, lowercase,
drop empties. -/
def parseExts (value : String) : List String :=
  ((((splitExtSeps value.data).map
      fun t => (dropOneLeadingDot (jsTrim t)).map jsToLowerChar).filter
    (fun t => t ≠ [])).map fun t => String.mk t)

/-! ## mergePathText (App.tsx lines 296-299)

`Array.from(new Set([...parsePaths(current), ...incoming.filter(Boolean)])).join("\n")`.
A JS `Set` keeps the first occurrence of each element in insertion order. -/

/-- First-occurrence deduplication, as performed by a JS `Set`. -/
def dedupFirst : List String → List String
  | [] => []
  | x :: xs => x :: (dedupFirst xs).filter (fun y => y ≠ x)

/-- `Array.prototype.join("\n")`. -/
def joinLines : List String → String
  | [] => ""
  | [x] => x
  | x :: xs => x ++ "\n" ++ joinLines xs

/-- `mergePathText` from App.tsx. -/
def mergePathText (current : String) (incoming : List String) : String :=
  joinLines (dedupFirst (parsePaths current ++ incoming.filter (fun p => p ≠ "")))

/-! ## Data model (types.ts)

The request envelopes sent over the IPC bridge, mirrored field by field from
types.ts.  Numbers that the UI always holds as integers are `Int`;
`tolerancePercent` can be fractional (`parseFloat`) and is `ℚ`. -/

inductive ConflictPolicy
  | overwrite | sequence | skip
deriving DecidableEq, Repr

inductive RenameSource
  | captureThenModified | modifiedOnly | currentTime
deriving DecidableEq, Repr

inductive DeleteMode
  | direct | trash | retreat
deriving DecidableEq, Repr

inductive MetadataStripPreset
  | snsPublish | delivery | fullClean | custom
deriving DecidableEq, Repr

structure MetadataStripCategories where
  gps : Bool
  cameraLens : Bool
  software : Bool
  authorCopyright : Bool
  comments : Bool
  thumbnail : Bool
  iptc : Bool
  xmp : Bool
  shootingSettings : Bool
  captureDateTime : Bool
deriving DecidableEq, Repr

structure RenamePreviewRequest where
  inputPaths : List String
  includeSubfolders : Bool
  template : String
  srcMode : RenameSource
  outputDir : Option String
  conflictPolicy : ConflictPolicy
  useFfprobe : Bool
deriving DecidableEq, Repr

structure DeletePreviewRequest where
  inputPaths : List String
  includeSubfolders : Bool
  extensions : List String
  mode : DeleteMode
  retreatDir : Option String
  conflictPolicy : ConflictPolicy
deriving DecidableEq, Repr

structure CompressPreviewRequest where
  inputPaths : List String
  includeSubfolders : Bool
  resizePercent : Int
  quality : Int
  targetSizeKb : Option Int
  tolerancePercent : ℚ
  preserveExif : Bool
  outputDir : Option String
  conflictPolicy : ConflictPolicy
deriving DecidableEq, Repr

structure FlattenPreviewRequest where
  inputDir : String
  outputDir : Option String
  conflictPolicy : ConflictPolicy
deriving DecidableEq, Repr

structure ExifOffsetPreviewRequest where
  inputPaths : List String
  includeSubfolders : Bool
  offsetSeconds : Int
deriving DecidableEq, Repr

structure MetadataStripPreviewRequest where
  inputPaths : List String
  includeSubfolders : Bool
  preset : MetadataStripPreset
  categories : MetadataStripCategories
deriving DecidableEq, Repr

/-- The six engine operations (the `operation` strings of progress events). -/
inductive Operation
  | rename | delete | compress | flatten | exifOffset | metadataStrip
deriving DecidableEq, Repr

/-- Payload of an operation IPC request. -/
inductive IpcRequest
  | rename (r : RenamePreviewRequest)
  | delete (r : DeletePreviewRequest)
  | compress (r : CompressPreviewRequest)
  | flatten (r : FlattenPreviewRequest)
  | exifOffset (r : ExifOffsetPreviewRequest)
  | metadataStrip (r : MetadataStripPreviewRequest)
deriving DecidableEq, Repr

/-- An operation IPC command as exposed by api.ts: each operation has a
`preview_*` (planner only) and an `execute_*` (mutating) command. -/
inductive IpcCall
  | preview (q : IpcRequest)
  | execute (q : IpcRequest)
deriving DecidableEq, Repr

/-- Which operation an IPC request payload belongs to. -/
def requestOperation : IpcRequest → Operation
  | .rename _ => .rename
  | .delete _ => .delete
  | .compress _ => .compress
  | .flatten _ => .flatten
  | .exifOffset _ => .exifOffset
  | .metadataStrip _ => .metadataStrip

/-- The UI tabs (`TabKey` in App.tsx). -/
inductive TabKey
  | rename | delete | compress | flatten | exifOffset | metadataStrip
  | settings | about
deriving DecidableEq, Repr

/-- The engine operation behind a tab (`tabToOperation` in App.tsx; the
settings and about tabs have none). -/
def tabOperation : TabKey → Option Operation
  | .rename => some .rename
  | .delete => some .delete
  | .compress => some .compress
  | .flatten => some .flatten
  | .exifOffset => some .exifOffset
  | .metadataStrip => some .metadataStrip
  | .settings => none
  | .about => none

/-- Sign selector of the EXIF offset form. -/
inductive OffsetSign
  | plus | minus
deriving DecidableEq, Repr

/-- The `App` component state, restricted to the fields that feed the
operation requests and the stored execute results.  Execute-result and
preview-result response payloads are opaque to the claims under
verification, so stored execute results are modelled as `Option Unit`
(present or cleared) and preview-result storage is elided. -/
structure AppState where
  renamePaths : String
  renameSubfolders : Bool
  renameTemplate : String
  renameSrc : RenameSource
  renameOutputDir : String
  renameConflictPolicy : ConflictPolicy
  useFfprobe : Bool
  renameExec : Option Unit
  deletePaths : String
  deleteSubfolders : Bool
  deleteExtensions : String
  deleteMode : DeleteMode
  deleteRetreatDir : String
  deleteConflictPolicy : ConflictPolicy
  deleteExec : Option Unit
  compressPaths : String
  compressSubfolders : Bool
  compressResizePercent : Int
  compressQuality : Int
  compressTolerancePercent : ℚ
  compressPreserveExif : Bool
  compressOutputDir : String
  compressConflictPolicy : ConflictPolicy
  compressExec : Option Unit
  flattenInputDir : String
  flattenOutputDir : String
  flattenConflictPolicy : ConflictPolicy
  flattenExec : Option Unit
  exifOffsetPaths : String
  exifOffsetSubfolders : Bool
  exifOffsetSign : OffsetSign
  exifOffsetDays : Int
  exifOffsetHours : Int
  exifOffsetMinutes : Int
  exifOffsetSeconds : Int
  exifOffsetExec : Option Unit
  metadataStripPaths : String
  metadataStripSubfolders : Bool
  metadataStripPreset : MetadataStripPreset
  metadataStripCategories : MetadataStripCategories
  metadataStripExec : Option Unit
deriving DecidableEq, Repr

/-- The stored execute result of an operation. -/
def execResult (op : Operation) (s : AppState) : Option Unit :=
  match op with
  | .rename => s.renameExec
  | .delete => s.deleteExec
  | .compress => s.compressExec
  | .flatten => s.flattenExec
  | .exifOffset => s.exifOffsetExec
  | .metadataStrip => s.metadataStripExec

/-- Model of the JS idiom `x.trim() || null` used for optional directories. -/
def trimOrNone (s : String) : Option String :=
  if jsTrimStr s = "" then none else some (jsTrimStr s)

/-- `totalOffsetSeconds` from App.tsx lines 423-426:
sign times (days·86400 + hours·3600 + minutes·60 + seconds). -/
def totalOffsetSeconds (s : AppState) : Int :=
  let abs := s.exifOffsetDays * 86400 + s.exifOffsetHours * 3600 +
    s.exifOffsetMinutes * 60 + s.exifOffsetSeconds
  match s.exifOffsetSign with
  | .plus => abs
  | .minus => -abs

/-- Request built by every rename preview/execute site. -/
def renameRequest (s : AppState) : RenamePreviewRequest :=
  { inputPaths := parsePaths s.renamePaths
    includeSubfolders := s.renameSubfolders
    template := s.renameTemplate
    srcMode := s.renameSrc
    outputDir := trimOrNone s.renameOutputDir
    conflictPolicy := s.renameConflictPolicy
    useFfprobe := s.useFfprobe }

/-- Request built by every delete preview/execute site (with the already
parsed extensions). -/
def deleteRequest (s : AppState) (extensions : List String) : DeletePreviewRequest :=
  { inputPaths := parsePaths s.deletePaths
    includeSubfolders := s.deleteSubfolders
    extensions := extensions
    mode := s.deleteMode
    retreatDir := if s.deleteMode = .retreat then some (jsTrimStr s.deleteRetreatDir) else none
    conflictPolicy := s.deleteConflictPolicy }

/-- Request built by the compress preview sites (`targetSizeKb: null`). -/
def compressRequest (s : AppState) : CompressPreviewRequest :=
  { inputPaths := parsePaths s.compressPaths
    includeSubfolders := s.compressSubfolders
    resizePercent := s.compressResizePercent
    quality := s.compressQuality
    targetSizeKb := none
    tolerancePercent := s.compressTolerancePercent
    preserveExif := s.compressPreserveExif
    outputDir := trimOrNone s.compressOutputDir
    conflictPolicy := s.compressConflictPolicy }

/-- Request built by the flatten preview/execute sites. -/
def flattenRequest (s : AppState) : FlattenPreviewRequest :=
  { inputDir := jsTrimStr s.flattenInputDir
    outputDir := trimOrNone s.flattenOutputDir
    conflictPolicy := s.flattenConflictPolicy }

/-- Request built by the EXIF offset preview/execute sites. -/
def exifOffsetRequest (s : AppState) : ExifOffsetPreviewRequest :=
  { inputPaths := parsePaths s.exifOffsetPaths
    includeSubfolders := s.exifOffsetSubfolders
    offsetSeconds := totalOffsetSeconds s }

/-- Request built by the metadata strip preview/execute sites. -/
def metadataStripRequest (s : AppState) : MetadataStripPreviewRequest :=
  { inputPaths := parsePaths s.metadataStripPaths
    includeSubfolders := s.metadataStripSubfolders
    preset := s.metadataStripPreset
    categories := s.metadataStripCategories }

/-- `previewCurrentTab` from App.tsx lines 977-1069, as issued IPC calls plus
the state updates it performs on the modelled fields.  Every branch first
checks its input guard, then clears the stored execute result of its own
operation and issues that operation's preview request.  (Storing the
response into the preview-result display state is elided, as is the
informational toast of the delete branch.) -/
def previewCurrentTab (tabKey : TabKey) (s : AppState) : List IpcCall × AppState :=
  match tabKey with
  | .rename =>
    if parsePaths s.renamePaths = [] then ([], s)
    else ([.preview (.rename (renameRequest s))], { s with renameExec := none })
  | .delete =>
    if parsePaths s.deletePaths = [] then ([], s)
    else if parseExts s.deleteExtensions = [] then ([], s)
    else ([.preview (.delete (deleteRequest s (parseExts s.deleteExtensions)))],
      { s with deleteExec := none })
  | .compress =>
    if parsePaths s.compressPaths = [] then ([], s)
    else ([.preview (.compress (compressRequest s))], { s with compressExec := none })
  | .flatten =>
    if jsTrimStr s.flattenInputDir = "" then ([], s)
    else ([.preview (.flatten (flattenRequest s))], { s with flattenExec := none })
  | .exifOffset =>
    if parsePaths s.exifOffsetPaths = [] then ([], s)
    else ([.preview (.exifOffset (exifOffsetRequest s))], { s with exifOffsetExec := none })
  | .metadataStrip =>
    if parsePaths s.metadataStripPaths = [] then ([], s)
    else ([.preview (.metadataStrip (metadataStripRequest s))],
      { s with metadataStripExec := none })
  | .settings => ([], s)
  | .about => ([], s)

/-! ## Form handlers

Each handler is modelled as the request it hands to the IPC façade, or the
error it throws before any IPC call is made (`throw` in the source happens
strictly before the `await` on the api.ts function, so `Except.error` means
no request was issued). -/

/-- Delete form submit (App.tsx lines 1447-1470): preview after validating
inputs and extensions. -/
def deletePreviewSubmit (s : AppState) : Except String DeletePreviewRequest :=
  if parsePaths s.deletePaths = [] then .error "入力パスを指定してください。"
  else if parseExts s.deleteExtensions = [] then .error "削除対象拡張子を指定してください。"
  else .ok (deleteRequest s (parseExts s.deleteExtensions))

/-- Delete execute button (App.tsx lines 1574-1591): same validation, then
`execute_delete`. -/
def deleteExecuteClick (s : AppState) : Except String DeletePreviewRequest :=
  if parsePaths s.deletePaths = [] then .error "入力パスを指定してください。"
  else if parseExts s.deleteExtensions = [] then .error "削除対象拡張子を指定してください。"
  else .ok (deleteRequest s (parseExts s.deleteExtensions))

/-- Compress form submit (App.tsx lines 1703-1722). -/
def compressPreviewSubmit (s : AppState) : Except String CompressPreviewRequest :=
  if parsePaths s.compressPaths = [] then .error "入力パスを指定してください。"
  else .ok (compressRequest s)

/-- Compress execute button (App.tsx lines 1875-1893). -/
def compressExecuteClick (s : AppState) : Except String CompressPreviewRequest :=
  if parsePaths s.compressPaths = [] then .error "入力パスを指定してください。"
  else .ok (compressRequest s)

/-- EXIF offset form submit (App.tsx lines 2164-2179): rejects empty input
and a zero total offset before calling `preview_exif_offset`. -/
def exifOffsetPreviewSubmit (s : AppState) : Except String ExifOffsetPreviewRequest :=
  if parsePaths s.exifOffsetPaths = [] then .error "入力パスを指定してください。"
  else if totalOffsetSeconds s = 0 then .error "オフセットを指定してください。"
  else .ok (exifOffsetRequest s)

/-- EXIF offset execute button (App.tsx lines 2227-2240): same validation,
then `execute_exif_offset`. -/
def exifOffsetExecuteClick (s : AppState) : Except String ExifOffsetPreviewRequest :=
  if parsePaths s.exifOffsetPaths = [] then .error "入力パスを指定してください。"
  else if totalOffsetSeconds s = 0 then .error "オフセットを指定してください。"
  else .ok (exifOffsetRequest s)

/-- Metadata strip form submit (App.tsx lines 2343-2358). -/
def metadataStripPreviewSubmit (s : AppState) : Except String MetadataStripPreviewRequest :=
  if parsePaths s.metadataStripPaths = [] then .error "入力パスを指定してください。"
  else .ok (metadataStripRequest s)

/-- Metadata strip execute button (App.tsx lines 2430-2443). -/
def metadataStripExecuteClick (s : AppState) : Except String MetadataStripPreviewRequest :=
  if parsePaths s.metadataStripPaths = [] then .error "入力パスを指定してください。"
  else .ok (metadataStripRequest s)

/-! ## Metadata strip presets (App.tsx line 395 and lines 2364-2376) -/

/-- `SNS_CATEGORIES` constant (App.tsx line 395). -/
def SNS_CATEGORIES : MetadataStripCategories :=
  { gps := true, cameraLens := true, software := false, authorCopyright := false,
    comments := true, thumbnail := true, iptc := false, xmp := false,
    shootingSettings := false, captureDateTime := false }

/-- Category mask installed by the preset `select` onChange handler
(App.tsx lines 2366-2376); choosing `custom` keeps the current mask. -/
def presetCategories (preset : MetadataStripPreset)
    (prev : MetadataStripCategories) : MetadataStripCategories :=
  match preset with
  | .snsPublish =>
    { gps := true, cameraLens := true, software := false, authorCopyright := false,
      comments := true, thumbnail := true, iptc := false, xmp := false,
      shootingSettings := false, captureDateTime := false }
  | .delivery =>
    { gps := false, cameraLens := true, software := true, authorCopyright := false,
      comments := true, thumbnail := false, iptc := false, xmp := false,
      shootingSettings := false, captureDateTime := false }
  | .fullClean =>
    { gps := true, cameraLens := true, software := true, authorCopyright := true,
      comments := true, thumbnail := true, iptc := true, xmp := true,
      shootingSettings := true, captureDateTime := true }
  | .custom => prev

/-! ## Settings import (App.tsx lines 242-250, 959-970, 2601) -/

structure ImportConflictPreview where
  deletePatternNames : List String
  renameTemplateNames : List String
  outputDirectoryKeys : List String
  themeConflict : Bool
deriving DecidableEq, Repr

/-- `hasImportConflicts` from App.tsx lines 242-250: false on a missing
preview, otherwise true iff one of the three name lists is non-empty or the
theme conflicts. -/
def hasImportConflicts : Option ImportConflictPreview → Bool
  | none => false
  | some preview =>
    !preview.deletePatternNames.isEmpty || !preview.renameTemplateNames.isEmpty ||
      !preview.outputDirectoryKeys.isEmpty || preview.themeConflict

inductive ImportMode
  | overwrite | merge
deriving DecidableEq, Repr

/-- Conflict policy values "existing" / "import" / "cancel". -/
inductive ImportConflictPolicy
  | existing | preferImport | cancel
deriving DecidableEq, Repr

/-- Settings-tab state feeding the import button. -/
structure SettingsState where
  importPath : String
  importMode : ImportMode
  importConflictPolicy : ImportConflictPolicy
  importConflictPreview : Option ImportConflictPreview
deriving DecidableEq, Repr

/-- IPC commands of the settings import flow (api.ts
`previewImportConflicts` and `importSettings`). -/
inductive SettingsIpcCall
  | previewImportConflicts (inputPath : String)
  | importSettings (inputPath : String) (mode : ImportMode) (policy : ImportConflictPolicy)
deriving DecidableEq, Repr

/-- The import button onClick (App.tsx line 2601), given the backend's
response `fetched` to a `previewImportConflicts` call.  In merge mode
without a stored conflict preview it runs `refreshImportConflicts`
(App.tsx lines 959-970) and aborts when the fetched preview has conflicts;
otherwise it proceeds to `importSettings`. -/
def importButtonClick (st : SettingsState) (fetched : ImportConflictPreview) :
    List SettingsIpcCall × Except String Unit :=
  if jsTrimStr st.importPath = "" then
    ([], .error "インポート元パスを指定してください。")
  else if st.importMode = .merge ∧ st.importConflictPreview = none then
    let fetchCall := SettingsIpcCall.previewImportConflicts (jsTrimStr st.importPath)
    if hasImportConflicts (some fetched) then
      ([fetchCall], .error "衝突が見つかりました。方針を確認して再実行してください。")
    else
      ([fetchCall,
        .importSettings (jsTrimStr st.importPath) st.importMode st.importConflictPolicy],
       .ok ())
  else
    ([.importSettings (jsTrimStr st.importPath) st.importMode st.importConflictPolicy],
     .ok ())

/-! ## Output-directory autosave debounce (App.tsx lines 560-587)

The effect watches the four output-directory fields.  Each edit re-runs the
effect: the cleanup clears the pending timer and a new 400 ms timer is
scheduled whose callback saves the (trimmed) field values of that render.
The model processes a chronological list of edits; a pending timer fires
when the next edit happens at or after its deadline, and is cancelled (via
`clearTimeout` in the effect cleanup) when the edit comes earlier.  Settings
fields other than the four output directories are untouched by this effect
and elided. -/

structure OutputDirs where
  rename : String
  deleteRetreat : String
  compress : String
  flatten : String
deriving DecidableEq, Repr

inductive OutputDirField
  | rename | deleteRetreat | compress | flatten
deriving DecidableEq, Repr

/-- Update one of the four fields. -/
def setOutputDir (d : OutputDirs) : OutputDirField → String → OutputDirs
  | .rename, v => { d with rename := v }
  | .deleteRetreat, v => { d with deleteRetreat := v }
  | .compress, v => { d with compress := v }
  | .flatten, v => { d with flatten := v }

/-- The `outputDirectories` payload the timer callback saves: each field
trimmed (App.tsx lines 566-575). -/
def trimOutputs (d : OutputDirs) : OutputDirs :=
  { rename := jsTrimStr d.rename
    deleteRetreat := jsTrimStr d.deleteRetreat
    compress := jsTrimStr d.compress
    flatten := jsTrimStr d.flatten }

/-- A user edit of one output-directory field at a time (milliseconds). -/
structure TimedEdit where
  time : Nat
  field : OutputDirField
  value : String
deriving DecidableEq, Repr

/-- A `saveSettings` call: when it ran and the directories it carried. -/
structure SaveEvent where
  time : Nat
  dirs : OutputDirs
deriving DecidableEq, Repr

/-- Current field values plus the pending debounce timer (deadline and the
payload its callback will save). -/
structure DebounceState where
  dirs : OutputDirs
  pending : Option (Nat × OutputDirs)
deriving DecidableEq, Repr

/-- One edit: fire the pending timer if its deadline has passed, apply the
edit, and schedule a save of the new trimmed values 400 ms later. -/
def applyEdit (st : DebounceState) (e : TimedEdit) : DebounceState × List SaveEvent :=
  let fired : List SaveEvent :=
    match st.pending with
    | some (deadline, payload) =>
      if deadline ≤ e.time then [{ time := deadline, dirs := payload }] else []
    | none => []
  let dirs' := setOutputDir st.dirs e.field e.value
  ({ dirs := dirs', pending := some (e.time + 400, trimOutputs dirs') }, fired)

/-- Process a chronological list of edits. -/
def runEdits : DebounceState → List TimedEdit → DebounceState × List SaveEvent
  | st, [] => (st, [])
  | st, e :: rest =>
    let step := applyEdit st e
    let tail := runEdits step.1 rest
    (tail.1, step.2 ++ tail.2)

/-- All saves produced by a list of edits once enough idle time passes for
the last timer to fire. -/
def debounceRun (d : OutputDirs) (edits : List TimedEdit) : List SaveEvent :=
  let result := runEdits { dirs := d, pending := none } edits
  result.2 ++
    (match result.1.pending with
     | some (deadline, payload) => [{ time := deadline, dirs := payload }]
     | none => [])

/-- The field values after a list of edits (ignoring timers). -/
def applyEditValues (d : OutputDirs) (edits : List TimedEdit) : OutputDirs :=
  edits.foldl (fun acc e => setOutputDir acc e.field e.value) d

/-! ## Compress quality / resize state (App.tsx lines 364-365, 1730-1754,
1788-1789) -/

/-- The two compress parameters held in component state. -/
structure CompressParams where
  resizePercent : Int
  quality : Int
deriving DecidableEq, Repr

/-- Initial state: `useState(100)` and `useState(82)`. -/
def initialCompressParams : CompressParams := { resizePercent := 100, quality := 82 }

/-- Model of `Number.parseInt(v, 10) || 1`: `none` models `NaN`; both `NaN`
and `0` are falsy and fall back to `1`. -/
def jsParseIntOr1 : Option Int → Int
  | none => 1
  | some n => if n = 0 then 1 else n

/-- `Math.max(1, Math.min(100, n))`. -/
def clamp1to100 (n : Int) : Int := max 1 (min 100 n)

/-- JS `Math.round`: round half toward positive infinity. -/
def jsMathRound (x : ℚ) : Int := ⌊x + 1 / 2⌋

/-- Events that write the two compress parameters: the two slider onChange
handlers (lines 1736 and 1750, input modelled as the `parseInt` result) and
the target-size calculation button applying the backend's effective
parameters (lines 1788-1789). -/
inductive CompressParamEvent
  | setResize (parsed : Option Int)
  | setQuality (parsed : Option Int)
  | applyEstimate (resize : ℚ) (quality : Int)
deriving DecidableEq, Repr

/-- State transition for one event. -/
def stepCompressParams (st : CompressParams) : CompressParamEvent → CompressParams
  | .setResize p => { st with resizePercent := clamp1to100 (jsParseIntOr1 p) }
  | .setQuality p => { st with quality := clamp1to100 (jsParseIntOr1 p) }
  | .applyEstimate r q => { resizePercent := jsMathRound r, quality := q }

/-- Modelled from the spec: the target-size solver (engine code, not under
src/) returns `effectiveResizePercent` and `effectiveQuality` within the
documented ranges — the solver only lowers the 1..100 resize and quality
inputs and "encode at the effective quality (1..100, ...)". -/
def estimateInRange : CompressParamEvent → Bool
  | .applyEstimate r q => decide (1 ≤ r ∧ r ≤ 100) && decide (1 ≤ q ∧ q ≤ 100)
  | _ => true

/-- Both parameters lie in 1..100. -/
def paramsInRange (st : CompressParams) : Prop :=
  1 ≤ st.resizePercent ∧ st.resizePercent ≤ 100 ∧ 1 ≤ st.quality ∧ st.quality ≤ 100

/-! ## Client-side compress size estimate (App.tsx lines 449-463) -/

/-- The `totalEstimated` value of `compressSizeSummary`: the backend sampled
estimate when present, otherwise
`totalSource * resizeRatio * resizeRatio * Math.pow(quality/100, 1.25)`. -/
noncomputable def compressEstimatedTotalSize (totalSource resizePercent quality : ℝ)
    (estimateResult : Option ℝ) : ℝ :=
  match estimateResult with
  | some sampled => sampled
  | none =>
    let resizeRatio := resizePercent / 100
    let qualityFactor := (quality / 100) ^ (1.25 : ℝ)
    totalSource * resizeRatio * resizeRatio * qualityFactor

/-- Modelled from the spec: the heuristic model
`size ≈ sum(source_i × (r/100)^2 × (q/100)^1.25)` of the target-size
solver, for a collected source total. -/
noncomputable def specHeuristicSize (sourceTotal r q : ℝ) : ℝ :=
  sourceTotal * (r / 100) ^ 2 * (q / 100) ^ (1.25 : ℝ)

/-! ## Path hygiene predicate

`mergePathText` re-parses its own output on the next merge, so its
set-semantics is only stable for paths that survive a parse round trip:
non-empty, trim-fixed, and free of the separator characters `,` and `\n`. -/

/-- A string that `parsePaths` maps to itself (as a singleton). -/
def GoodPath (x : String) : Prop :=
  x ≠ "" ∧ jsTrim x.data = x.data ∧ ∀ c ∈ x.data, c ≠ ',' ∧ c ≠ '\n'

instance : DecidablePred GoodPath := fun x => by
  unfold GoodPath; infer_instance

/-- A concrete component state used to instantiate the handler theorems. -/
def sampleState : AppState where
  renamePaths := "C:/in/a.jpg"
  renameSubfolders := false
  renameTemplate := "name"
  renameSrc := .captureThenModified
  renameOutputDir := ""
  renameConflictPolicy := .sequence
  useFfprobe := false
  renameExec := some ()
  deletePaths := "C:/in/a.jpg"
  deleteSubfolders := false
  deleteExtensions := "jpg"
  deleteMode := .trash
  deleteRetreatDir := ""
  deleteConflictPolicy := .sequence
  deleteExec := some ()
  compressPaths := "C:/in/a.jpg"
  compressSubfolders := false
  compressResizePercent := 100
  compressQuality := 82
  compressTolerancePercent := 10
  compressPreserveExif := true
  compressOutputDir := ""
  compressConflictPolicy := .sequence
  compressExec := some ()
  flattenInputDir := "C:/in"
  flattenOutputDir := ""
  flattenConflictPolicy := .sequence
  flattenExec := some ()
  exifOffsetPaths := "C:/in/a.jpg"
  exifOffsetSubfolders := false
  exifOffsetSign := .plus
  exifOffsetDays := 0
  exifOffsetHours := 1
  exifOffsetMinutes := 0
  exifOffsetSeconds := 0
  exifOffsetExec := some ()
  metadataStripPaths := "C:/in/a.jpg"
  metadataStripSubfolders := false
  metadataStripPreset := .snsPublish
  metadataStripCategories := SNS_CATEGORIES
  metadataStripExec := some ()

/-- A concrete settings-tab state in merge mode without a stored conflict
check. -/
def sampleSettingsState : SettingsState where
  importPath := "C:/backup/settings.json"
  importMode := .merge
  importConflictPolicy := .existing
  importConflictPreview := none

/-- A concrete fetched conflict preview that has conflicts. -/
def sampleConflictPreview : ImportConflictPreview where
  deletePatternNames := ["temps"]
  renameTemplateNames := []
  outputDirectoryKeys := []
  themeConflict := false

/-! ## Theorems -/

/-- C2: for every collected source total, resize percent and quality, when
no sampled backend estimate is available the client-side estimated total
size equals `S * (r/100)^2 * (q/100)^1.25`, the heuristic model the spec
gives for the target-size solver. -/
theorem compress_client_estimate_matches_spec_model (S r q : ℝ) :
    compressEstimatedTotalSize S r q none = specHeuristicSize S r q := by
  simp only [compressEstimatedTotalSize, specHeuristicSize]
  ring

/-- C3: selecting the SNS-publish preset sets exactly gps, cameraLens,
comments and thumbnail to true and the other six categories to false (and
the `SNS_CATEGORIES` initial constant is the same mask), and the metadata
strip preview and execute requests carry the category mask held in state. -/
theorem snsPublish_mask_and_requests :
    (∀ prev, presetCategories .snsPublish prev =
      { gps := true, cameraLens := true, comments := true, thumbnail := true,
        software := false, authorCopyright := false, iptc := false, xmp := false,
        shootingSettings := false, captureDateTime := false }) ∧
    SNS_CATEGORIES =
      { gps := true, cameraLens := true, comments := true, thumbnail := true,
        software := false, authorCopyright := false, iptc := false, xmp := false,
        shootingSettings := false, captureDateTime := false } ∧
    (∀ s req, metadataStripPreviewSubmit s = .ok req →
      req.categories = s.metadataStripCategories) ∧
    (∀ s req, metadataStripExecuteClick s = .ok req →
      req.categories = s.metadataStripCategories) ∧
    (∀ s c, c ∈ (previewCurrentTab .metadataStrip s).1 →
      ∃ req, c = .preview (.metadataStrip req) ∧
        req.categories = s.metadataStripCategories) := by
  refine ⟨fun prev => rfl, rfl, ?_, ?_, ?_⟩
  · intro s req h
    by_cases hp : parsePaths s.metadataStripPaths = [] <;>
      simp [metadataStripPreviewSubmit, hp] at h
    simp [← h, metadataStripRequest]
  · intro s req h
    by_cases hp : parsePaths s.metadataStripPaths = [] <;>
      simp [metadataStripExecuteClick, hp] at h
    simp [← h, metadataStripRequest]
  · intro s c hc
    by_cases hp : parsePaths s.metadataStripPaths = [] <;>
      simp [previewCurrentTab, hp] at hc
    exact ⟨metadataStripRequest s, hc, rfl⟩

/-- C3 witness: the preview submit on a concrete state in the SNS preset
carries the SNS mask. -/
theorem snsPublish_mask_witness :
    metadataStripPreviewSubmit sampleState = .ok (metadataStripRequest sampleState) ∧
    (metadataStripRequest sampleState).categories = sampleState.metadataStripCategories :=
  ⟨rfl, snsPublish_mask_and_requests.2.2.1 sampleState
    (metadataStripRequest sampleState) rfl⟩

/-- C5: delete preview and delete execute fail with an error (issuing no IPC
request) whenever the parsed extension set or the input path list is empty,
and every delete request they or the tab preview flow hand to the backend
carries a non-empty extension list. -/
theorem delete_request_guard (s : AppState) :
    (parsePaths s.deletePaths = [] ∨ parseExts s.deleteExtensions = [] →
      (∃ e, deletePreviewSubmit s = .error e) ∧ ∃ e, deleteExecuteClick s = .error e) ∧
    (∀ req, deletePreviewSubmit s = .ok req →
      req.extensions = parseExts s.deleteExtensions ∧ req.extensions ≠ []) ∧
    (∀ req, deleteExecuteClick s = .ok req →
      req.extensions = parseExts s.deleteExtensions ∧ req.extensions ≠ []) ∧
    (∀ c ∈ (previewCurrentTab .delete s).1,
      ∃ req, c = .preview (.delete req) ∧ req.extensions ≠ []) := by
  refine ⟨?_, ?_, ?_, ?_⟩
  · intro h
    by_cases h1 : parsePaths s.deletePaths = []
    · exact ⟨⟨"入力パスを指定してください。", by simp [deletePreviewSubmit, h1]⟩,
        "入力パスを指定してください。", by simp [deleteExecuteClick, h1]⟩
    · have h2 : parseExts s.deleteExtensions = [] := h.resolve_left h1
      exact ⟨⟨"削除対象拡張子を指定してください。", by simp [deletePreviewSubmit, h1, h2]⟩,
        "削除対象拡張子を指定してください。", by simp [deleteExecuteClick, h1, h2]⟩
  · intro req h
    by_cases h1 : parsePaths s.deletePaths = [] <;>
      by_cases h2 : parseExts s.deleteExtensions = [] <;>
      simp [deletePreviewSubmit, h1, h2] at h
    simp [← h, deleteRequest, h2]
  · intro req h
    by_cases h1 : parsePaths s.deletePaths = [] <;>
      by_cases h2 : parseExts s.deleteExtensions = [] <;>
      simp [deleteExecuteClick, h1, h2] at h
    simp [← h, deleteRequest, h2]
  · intro c hc
    by_cases h1 : parsePaths s.deletePaths = [] <;>
      by_cases h2 : parseExts s.deleteExtensions = [] <;>
      simp [previewCurrentTab, h1, h2] at hc
    exact ⟨deleteRequest s (parseExts s.deleteExtensions), hc, by simp [deleteRequest, h2]⟩

/-- C5 witness: the concrete state produces a request whose extension list
is the parsed non-empty set. -/
theorem delete_request_guard_witness :
    deletePreviewSubmit sampleState = .ok (deleteRequest sampleState ["jpg"]) ∧
    (deleteRequest sampleState ["jpg"]).extensions = parseExts sampleState.deleteExtensions ∧
    (deleteRequest sampleState ["jpg"]).extensions ≠ [] :=
  ⟨rfl, (delete_request_guard sampleState).2.1
    (deleteRequest sampleState ["jpg"]) rfl⟩

/-- C9: the EXIF-offset form submit and execute click reject a zero total
offset with an error before any IPC call, where the total offset is
sign times (days·86400 + hours·3600 + minutes·60 + seconds), so every
request they issue carries a non-zero `offsetSeconds`. -/
theorem exif_offset_zero_guard (s : AppState) :
    (s.exifOffsetSign = .plus → totalOffsetSeconds s =
      s.exifOffsetDays * 86400 + s.exifOffsetHours * 3600 +
        s.exifOffsetMinutes * 60 + s.exifOffsetSeconds) ∧
    (s.exifOffsetSign = .minus → totalOffsetSeconds s =
      -(s.exifOffsetDays * 86400 + s.exifOffsetHours * 3600 +
        s.exifOffsetMinutes * 60 + s.exifOffsetSeconds)) ∧
    (totalOffsetSeconds s = 0 →
      (∃ e, exifOffsetPreviewSubmit s = .error e) ∧
        ∃ e, exifOffsetExecuteClick s = .error e) ∧
    (∀ req, exifOffsetPreviewSubmit s = .ok req →
      req.offsetSeconds = totalOffsetSeconds s ∧ req.offsetSeconds ≠ 0) ∧
    (∀ req, exifOffsetExecuteClick s = .ok req →
      req.offsetSeconds = totalOffsetSeconds s ∧ req.offsetSeconds ≠ 0) := by
  refine ⟨?_, ?_, ?_, ?_, ?_⟩
  · intro hsign; simp [totalOffsetSeconds, hsign]
  · intro hsign; simp [totalOffsetSeconds, hsign]
  · intro h0
    by_cases h1 : parsePaths s.exifOffsetPaths = []
    · exact ⟨⟨"入力パスを指定してください。", by simp [exifOffsetPreviewSubmit, h1]⟩,
        "入力パスを指定してください。", by simp [exifOffsetExecuteClick, h1]⟩
    · exact ⟨⟨"オフセットを指定してください。", by simp [exifOffsetPreviewSubmit, h1, h0]⟩,
        "オフセットを指定してください。", by simp [exifOffsetExecuteClick, h1, h0]⟩
  · intro req h
    by_cases h1 : parsePaths s.exifOffsetPaths = [] <;>
      by_cases h0 : totalOffsetSeconds s = 0 <;>
      simp [exifOffsetPreviewSubmit, h1, h0] at h
    simp [← h, exifOffsetRequest, h0]
  · intro req h
    by_cases h1 : parsePaths s.exifOffsetPaths = [] <;>
      by_cases h0 : totalOffsetSeconds s = 0 <;>
      simp [exifOffsetExecuteClick, h1, h0] at h
    simp [← h, exifOffsetRequest, h0]

/-- C9 witness: on the concrete state (offset +1 hour) the submit yields a
request with a non-zero 3600-second offset. -/
theorem exif_offset_zero_guard_witness :
    exifOffsetPreviewSubmit sampleState = .ok (exifOffsetRequest sampleState) ∧
    (exifOffsetRequest sampleState).offsetSeconds = totalOffsetSeconds sampleState ∧
    (exifOffsetRequest sampleState).offsetSeconds ≠ 0 :=
  ⟨rfl, (exif_offset_zero_guard sampleState).2.2.2.1
    (exifOffsetRequest sampleState) rfl⟩

/-- C6: in merge mode with no prior conflict check, the import button first
fetches the conflict preview, and when that preview has conflicts it aborts
with an error and `importSettings` is never called; `hasImportConflicts`
holds exactly when one of the three name lists is non-empty or the theme
conflicts. -/
theorem merge_import_conflict_guard (st : SettingsState) (fetched : ImportConflictPreview)
    (hmode : st.importMode = .merge) (hnone : st.importConflictPreview = none)
    (hpath : jsTrimStr st.importPath ≠ "")
    (hconf : hasImportConflicts (some fetched) = true) :
    (importButtonClick st fetched).1 =
      [.previewImportConflicts (jsTrimStr st.importPath)] ∧
    (∃ e, (importButtonClick st fetched).2 = .error e) ∧
    (∀ p m pol, SettingsIpcCall.importSettings p m pol ∉ (importButtonClick st fetched).1) ∧
    (∀ preview : ImportConflictPreview,
      hasImportConflicts (some preview) = true ↔
        preview.deletePatternNames ≠ [] ∨ preview.renameTemplateNames ≠ [] ∨
          preview.outputDirectoryKeys ≠ [] ∨ preview.themeConflict = true) := by
  have hcalls : importButtonClick st fetched =
      ([.previewImportConflicts (jsTrimStr st.importPath)],
        .error "衝突が見つかりました。方針を確認して再実行してください。") := by
    simp [importButtonClick, hpath, hmode, hnone, hconf]
  refine ⟨by rw [hcalls], ⟨_, by rw [hcalls]⟩, ?_, ?_⟩
  · intro p m pol
    rw [hcalls]
    simp
  · intro preview
    simp [hasImportConflicts, List.isEmpty_iff, or_assoc]

/-- C6 witness: a concrete merge-mode state with a conflicting fetched
preview fetches once, errors, and never calls `importSettings`. -/
theorem merge_import_conflict_guard_witness :
    (importButtonClick sampleSettingsState sampleConflictPreview).1 =
      [.previewImportConflicts (jsTrimStr sampleSettingsState.importPath)] ∧
    (∃ e, (importButtonClick sampleSettingsState sampleConflictPreview).2 = .error e) ∧
    ∀ p m pol, SettingsIpcCall.importSettings p m pol ∉
      (importButtonClick sampleSettingsState sampleConflictPreview).1 := by
  have h := merge_import_conflict_guard sampleSettingsState sampleConflictPreview
    rfl rfl (by decide) (by decide)
  exact ⟨h.1, h.2.1, h.2.2.1⟩

/-- C1: for every operation tab, the tab preview flow issues only that
operation's `preview_*` command — never an `execute_*` command — and
whenever it issues anything it has cleared the stored execute result of
that operation. -/
theorem previewCurrentTab_only_previews (tabKey : TabKey) (s : AppState) :
    (∀ c ∈ (previewCurrentTab tabKey s).1,
      ∃ q, c = IpcCall.preview q ∧ tabOperation tabKey = some (requestOperation q)) ∧
    ((previewCurrentTab tabKey s).1 ≠ [] →
      ∃ op, tabOperation tabKey = some op ∧
        execResult op (previewCurrentTab tabKey s).2 = none) := by
  cases tabKey with
  | rename =>
    by_cases h : parsePaths s.renamePaths = []
    · simp [previewCurrentTab, h]
    · constructor
      · intro c hc
        simp [previewCurrentTab, h] at hc
        exact ⟨_, hc, rfl⟩
      · intro _
        exact ⟨.rename, rfl, by simp [previewCurrentTab, h, execResult]⟩
  | delete =>
    by_cases h1 : parsePaths s.deletePaths = []
    · simp [previewCurrentTab, h1]
    · by_cases h2 : parseExts s.deleteExtensions = []
      · simp [previewCurrentTab, h1, h2]
      · constructor
        · intro c hc
          simp [previewCurrentTab, h1, h2] at hc
          exact ⟨_, hc, rfl⟩
        · intro _
          exact ⟨.delete, rfl, by simp [previewCurrentTab, h1, h2, execResult]⟩
  | compress =>
    by_cases h : parsePaths s.compressPaths = []
    · simp [previewCurrentTab, h]
    · constructor
      · intro c hc
        simp [previewCurrentTab, h] at hc
        exact ⟨_, hc, rfl⟩
      · intro _
        exact ⟨.compress, rfl, by simp [previewCurrentTab, h, execResult]⟩
  | flatten =>
    by_cases h : jsTrimStr s.flattenInputDir = ""
    · simp [previewCurrentTab, h]
    · constructor
      · intro c hc
        simp [previewCurrentTab, h] at hc
        exact ⟨_, hc, rfl⟩
      · intro _
        exact ⟨.flatten, rfl, by simp [previewCurrentTab, h, execResult]⟩
  | exifOffset =>
    by_cases h : parsePaths s.exifOffsetPaths = []
    · simp [previewCurrentTab, h]
    · constructor
      · intro c hc
        simp [previewCurrentTab, h] at hc
        exact ⟨_, hc, rfl⟩
      · intro _
        exact ⟨.exifOffset, rfl, by simp [previewCurrentTab, h, execResult]⟩
  | metadataStrip =>
    by_cases h : parsePaths s.metadataStripPaths = []
    · simp [previewCurrentTab, h]
    · constructor
      · intro c hc
        simp [previewCurrentTab, h] at hc
        exact ⟨_, hc, rfl⟩
      · intro _
        exact ⟨.metadataStrip, rfl, by simp [previewCurrentTab, h, execResult]⟩
  | settings => simp [previewCurrentTab]
  | about => simp [previewCurrentTab]

/-- C1 witness: on the concrete state the rename tab flow issues exactly the
rename preview call and has cleared the stored rename execute result. -/
theorem previewCurrentTab_only_previews_witness :
    (IpcCall.preview (.rename (renameRequest sampleState)) ∈
        (previewCurrentTab .rename sampleState).1 →
      ∃ q, IpcCall.preview (.rename (renameRequest sampleState)) = IpcCall.preview q ∧
        tabOperation .rename = some (requestOperation q)) ∧
    ((previewCurrentTab .rename sampleState).1 ≠ [] →
      ∃ op, tabOperation .rename = some op ∧
        execResult op (previewCurrentTab .rename sampleState).2 = none) :=
  ⟨(previewCurrentTab_only_previews .rename sampleState).1 _,
    (previewCurrentTab_only_previews .rename sampleState).2⟩

/-- One step of the compress parameter state machine stays in 1..100. -/
theorem stepCompressParams_range (st : CompressParams) (e : CompressParamEvent)
    (h1 : paramsInRange st) (h2 : estimateInRange e = true) :
    paramsInRange (stepCompressParams st e) := by
  obtain ⟨a1, a2, b1, b2⟩ := h1
  cases e with
  | setResize p =>
    refine ⟨?_, ?_, b1, b2⟩ <;> simp only [stepCompressParams, clamp1to100]
    · exact le_max_left _ _
    · exact max_le (by norm_num) (min_le_left _ _)
  | setQuality p =>
    refine ⟨a1, a2, ?_, ?_⟩ <;> simp only [stepCompressParams, clamp1to100]
    · exact le_max_left _ _
    · exact max_le (by norm_num) (min_le_left _ _)
  | applyEstimate r q =>
    simp only [estimateInRange, Bool.and_eq_true, decide_eq_true_eq] at h2
    obtain ⟨⟨hr1, hr2⟩, hq1, hq2⟩ := h2
    refine ⟨?_, ?_, hq1, hq2⟩
    · simp only [stepCompressParams, jsMathRound]
      rw [Int.le_floor]
      push_cast
      linarith
    · simp only [stepCompressParams, jsMathRound]
      have hlt : (⌊r + 1 / 2⌋ : ℤ) < 101 := by
        rw [Int.floor_lt]
        push_cast
        linarith
      omega

/-- C8: starting from the initial sliders (100, 82), every sequence of
parameter events — slider edits, which clamp `parseInt(v) || 1` into
1..100, and target-size calculations applying the solver's effective
parameters — keeps resize percent and quality in 1..100, and the compress
preview/execute requests carry exactly the state values. -/
theorem compress_params_range_invariant (events : List CompressParamEvent)
    (h : ∀ e ∈ events, estimateInRange e = true) :
    paramsInRange (events.foldl stepCompressParams initialCompressParams) ∧
    (∀ s req, compressPreviewSubmit s = .ok req →
      req.resizePercent = s.compressResizePercent ∧ req.quality = s.compressQuality) ∧
    (∀ s req, compressExecuteClick s = .ok req →
      req.resizePercent = s.compressResizePercent ∧ req.quality = s.compressQuality) ∧
    (∀ s c, c ∈ (previewCurrentTab .compress s).1 →
      ∃ req, c = .preview (.compress req) ∧
        req.resizePercent = s.compressResizePercent ∧
        req.quality = s.compressQuality) := by
  refine ⟨?_, ?_, ?_, ?_⟩
  · have main : ∀ (evs : List CompressParamEvent) (st : CompressParams),
        paramsInRange st → (∀ e ∈ evs, estimateInRange e = true) →
        paramsInRange (evs.foldl stepCompressParams st) := by
      intro evs
      induction evs with
      | nil => intro st h1 _; exact h1
      | cons e rest ih =>
        intro st h1 h2
        exact ih _ (stepCompressParams_range st e h1 (h2 e (by simp)))
          fun e' he' => h2 e' (by simp [he'])
    exact main events initialCompressParams ⟨by decide, by decide, by decide, by decide⟩ h
  · intro s req hreq
    by_cases hp : parsePaths s.compressPaths = [] <;>
      simp [compressPreviewSubmit, hp] at hreq
    simp [← hreq, compressRequest]
  · intro s req hreq
    by_cases hp : parsePaths s.compressPaths = [] <;>
      simp [compressExecuteClick, hp] at hreq
    simp [← hreq, compressRequest]
  · intro s c hc
    by_cases hp : parsePaths s.compressPaths = [] <;>
      simp [previewCurrentTab, hp] at hc
    exact ⟨compressRequest s, hc, rfl, rfl⟩

/-- C8 witness: a concrete event burst (slider overflow, solver result,
unparsable quality input) ends inside 1..100. -/
theorem compress_params_range_witness :
    paramsInRange ([CompressParamEvent.setResize (some 500),
      CompressParamEvent.applyEstimate 55 60,
      CompressParamEvent.setQuality none].foldl
        stepCompressParams initialCompressParams) :=
  (compress_params_range_invariant _ (by decide)).1

/-- During a burst (each edit strictly less than 400 ms after the previous
one, in chronological order, and arriving before any already pending
deadline), processing the edits fires no timer: the final state holds the
values of the last edit with a save pending 400 ms after it. -/
theorem runEdits_burst (edits : List TimedEdit) :
    ∀ (st : DebounceState) (h1 : edits ≠ []),
      (∀ deadline payload, st.pending = some (deadline, payload) →
        (edits.head h1).time < deadline) →
      List.Chain' (fun a b => a.time ≤ b.time ∧ b.time < a.time + 400) edits →
      runEdits st edits =
        ({ dirs := applyEditValues st.dirs edits,
           pending := some ((edits.getLast h1).time + 400,
             trimOutputs (applyEditValues st.dirs edits)) }, []) := by
  induction edits with
  | nil => intro st h1; exact absurd rfl h1
  | cons e rest ih =>
    intro st h1 hpend hchain
    have hfired : (applyEdit st e).2 = [] := by
      simp only [applyEdit]
      cases hp : st.pending with
      | none => rfl
      | some p =>
        obtain ⟨deadline, payload⟩ := p
        have hlt := hpend deadline payload hp
        simp only [List.head_cons] at hlt
        show (if deadline ≤ e.time then
          [{ time := deadline, dirs := payload : SaveEvent }] else []) = []
        rw [if_neg (by omega)]
    have hstep : (applyEdit st e).1 =
        { dirs := setOutputDir st.dirs e.field e.value,
          pending := some (e.time + 400,
            trimOutputs (setOutputDir st.dirs e.field e.value)) } := rfl
    cases rest with
    | nil =>
      simp only [runEdits, hfired, hstep, List.append_nil]
      simp [applyEditValues]
    | cons e2 rest2 =>
      have hchain2 := List.chain'_cons.mp hchain
      have hne : (e2 :: rest2) ≠ [] := by simp
      have hpend2 : ∀ deadline payload,
          ((applyEdit st e).1).pending = some (deadline, payload) →
          ((e2 :: rest2).head hne).time < deadline := by
        intro deadline payload hp
        rw [hstep] at hp
        simp only [Option.some.injEq, Prod.mk.injEq] at hp
        simp only [List.head_cons, ← hp.1]
        exact hchain2.1.2
      have ihres := ih (applyEdit st e).1 hne hpend2 hchain2.2
      have hunfold : runEdits st (e :: e2 :: rest2) =
          ((runEdits (applyEdit st e).1 (e2 :: rest2)).1,
            (applyEdit st e).2 ++ (runEdits (applyEdit st e).1 (e2 :: rest2)).2) := rfl
      rw [hunfold, hfired, ihres, hstep]
      simp [applyEditValues, List.getLast_cons]

/-- C7: a burst of edits to the four output-directory fields (consecutive
gaps under 400 ms) produces exactly one `saveSettings` call, scheduled
400 ms after the last edit and carrying the trimmed final field values. -/
theorem output_autosave_debounce (d : OutputDirs) (edits : List TimedEdit)
    (h1 : edits ≠ [])
    (h2 : List.Chain' (fun a b => a.time ≤ b.time ∧ b.time < a.time + 400) edits) :
    debounceRun d edits =
      [{ time := (edits.getLast h1).time + 400,
         dirs := trimOutputs (applyEditValues d edits) }] := by
  have h := runEdits_burst edits { dirs := d, pending := none } h1
    (by intro deadline payload hp; simp at hp) h2
  simp [debounceRun, h]

/-- C7 witness: two edits 300 ms apart yield exactly one save, at 700 ms,
carrying both final (trimmed) values. -/
theorem output_autosave_debounce_witness :
    debounceRun { rename := "", deleteRetreat := "", compress := "", flatten := "" }
      [{ time := 0, field := .rename, value := " A " },
       { time := 300, field := .compress, value := "B" }] =
      [{ time := 700,
         dirs := { rename := "A", deleteRetreat := "", compress := "B", flatten := "" } }] := by
  rw [output_autosave_debounce _ _ (by decide)
    (List.chain'_cons.mpr ⟨⟨by decide, by decide⟩, List.chain'_singleton _⟩)]
  decide

/-- Lowercasing never produces an ASCII uppercase letter. -/
theorem jsToLowerChar_not_upper (c : Char) : isAsciiUpper (jsToLowerChar c) = false := by
  unfold jsToLowerChar
  cases h : asciiUpperLower.find? (fun p => p.1 = c) with
  | none =>
    have hall := List.find?_eq_none.mp h
    simp only [decide_eq_true_eq] at hall
    simp only [isAsciiUpper, decide_eq_false_iff_not]
    intro hc
    obtain ⟨p, hp, hpc⟩ := List.mem_map.mp hc
    exact hall p hp hpc
  | some p =>
    have hp := List.mem_of_find?_eq_some h
    have hlow : ∀ q ∈ asciiUpperLower, isAsciiUpper q.2 = false := by decide
    exact hlow p hp

/-- Lowercasing never produces a separator character. -/
theorem jsToLowerChar_not_sep (c : Char) (hc : isExtSep c = false) :
    isExtSep (jsToLowerChar c) = false := by
  unfold jsToLowerChar
  cases h : asciiUpperLower.find? (fun p => p.1 = c) with
  | none => exact hc
  | some p =>
    have hp := List.mem_of_find?_eq_some h
    have hlow : ∀ q ∈ asciiUpperLower, isExtSep q.2 = false := by decide
    exact hlow p hp

/-- The extension splitter always yields at least one token. -/
theorem splitExtSeps_ne_nil (a : List Char) : splitExtSeps a ≠ [] := by
  cases a with
  | nil => simp [splitExtSeps]
  | cons x rest =>
    by_cases hx : isExtSep x = true
    · simp [splitExtSeps, hx]
    · simp only [splitExtSeps, hx, if_false, Bool.not_eq_true]
      cases splitExtSeps rest <;> simp [consHead]

/-- Tokens produced by the extension splitter contain no separator. -/
theorem splitExtSeps_noSep (a : List Char) :
    ∀ t ∈ splitExtSeps a, ∀ c ∈ t, isExtSep c = false := by
  induction a with
  | nil =>
    intro t ht c hc
    simp only [splitExtSeps, List.mem_singleton] at ht
    subst ht
    simp at hc
  | cons x rest ih =>
    intro t ht c hc
    by_cases hx : isExtSep x = true
    · simp only [splitExtSeps, hx, if_true, List.mem_cons] at ht
      rcases ht with rfl | ht
      · simp at hc
      · exact ih t ht c hc
    · simp [splitExtSeps, hx] at ht
      cases hsp : splitExtSeps rest with
      | nil => exact absurd hsp (splitExtSeps_ne_nil rest)
      | cons t0 ts =>
        rw [hsp] at ht
        simp only [consHead, List.mem_cons] at ht
        rcases ht with ht1 | ht2
        · subst ht1
          rcases List.mem_cons.mp hc with hcx | hc2
          · subst hcx
            simpa using hx
          · exact ih t0 (by rw [hsp]; exact List.mem_cons_self t0 ts) c hc2
        · exact ih t (by rw [hsp]; exact List.mem_cons_of_mem t0 ht2) c hc

/-- Removing a leading dot keeps a sublist of the characters. -/
theorem mem_dropOneLeadingDot {c : Char} {l : List Char}
    (h : c ∈ dropOneLeadingDot l) : c ∈ l := by
  unfold dropOneLeadingDot at h
  split at h
  · exact List.mem_cons_of_mem _ h
  · exact h

/-- Trimming keeps a sublist of the characters. -/
theorem mem_jsTrim {c : Char} {l : List Char} (h : c ∈ jsTrim l) : c ∈ l := by
  unfold jsTrim at h
  have h2 : c ∈ (l.dropWhile isJsSpace).reverse :=
    (List.dropWhile_sublist isJsSpace).subset (List.mem_reverse.mp h)
  exact (List.dropWhile_sublist isJsSpace).subset (List.mem_reverse.mp h2)

/-- C4 counterexample: an input token with two leading dots yields an entry
that still starts with a dot — `replace(/^\./, "")` strips only one dot, so
the entry sent to the backend is not dot-free as claimed. -/
theorem parseExts_leading_dot_counterexample :
    parseExts "..jpg" = [".jpg"] ∧ ∃ e ∈ parseExts "..jpg", e.data.head? = some '.' := by
  decide

/-- C4 amended: every entry of the parsed extension list is non-empty,
contains no ASCII uppercase letter and no separator character, with exactly
one leading dot removed from each token (an input token that began with two
or more dots keeps the surplus dots). -/
theorem parseExts_entries_sanitized (s : String) :
    ∀ e ∈ parseExts s, e ≠ "" ∧ (∀ c ∈ e.data, isAsciiUpper c = false) ∧
      ∀ c ∈ e.data, isExtSep c = false := by
  intro e he
  unfold parseExts at he
  simp only [List.mem_map, List.mem_filter] at he
  obtain ⟨t, ⟨⟨t0, ht0, rfl⟩, htne⟩, rfl⟩ := he
  simp only [decide_eq_true_eq] at htne
  refine ⟨?_, ?_, ?_⟩
  · intro habs
    exact htne (congrArg String.data habs)
  · intro c hcm
    obtain ⟨c0, _, rfl⟩ := List.mem_map.mp hcm
    exact jsToLowerChar_not_upper c0
  · intro c hcm
    obtain ⟨c0, hc0, rfl⟩ := List.mem_map.mp hcm
    exact jsToLowerChar_not_sep c0
      (splitExtSeps_noSep s.data t0 ht0 c0 (mem_jsTrim (mem_dropOneLeadingDot hc0)))

/-- C4 witness: the concrete entry parsed from ".JPG, png" is non-empty,
lowercase and separator-free. -/
theorem parseExts_entries_sanitized_witness :
    "jpg" ∈ parseExts ".JPG, png" ∧
    ("jpg" ≠ "" ∧ (∀ c ∈ "jpg".data, isAsciiUpper c = false) ∧
      ∀ c ∈ "jpg".data, isExtSep c = false) :=
  ⟨by decide, parseExts_entries_sanitized ".JPG, png" "jpg" (by decide)⟩

/-- The head surviving `dropWhile` fails the predicate. -/
theorem head?_dropWhile_isJsSpace (l : List Char) :
    ∀ c, (l.dropWhile isJsSpace).head? = some c → isJsSpace c = false := by
  induction l with
  | nil => intro c h; simp at h
  | cons x xs ih =>
    intro c h
    by_cases hx : isJsSpace x = true
    · rw [List.dropWhile_cons_of_pos hx] at h
      exact ih c h
    · rw [List.dropWhile_cons_of_neg hx] at h
      simp only [List.head?_cons, Option.some.injEq] at h
      rw [← h]
      simpa using hx

/-- `dropWhile` is the identity when the head fails the predicate. -/
theorem dropWhile_eq_self_isJsSpace (l : List Char)
    (h : ∀ c, l.head? = some c → isJsSpace c = false) :
    l.dropWhile isJsSpace = l := by
  cases l with
  | nil => rfl
  | cons x xs =>
    rw [List.dropWhile_cons_of_neg]
    simp [h x rfl]

/-- `dropWhile` keeps the last element when it keeps anything. -/
theorem getLast?_dropWhile_isJsSpace (l : List Char)
    (hne : l.dropWhile isJsSpace ≠ []) :
    (l.dropWhile isJsSpace).getLast? = l.getLast? := by
  induction l with
  | nil => simp at hne
  | cons x xs ih =>
    by_cases hx : isJsSpace x = true
    · rw [List.dropWhile_cons_of_pos hx] at hne ⊢
      rw [ih hne]
      have hxs : xs ≠ [] := by
        intro h0
        rw [h0] at hne
        simp at hne
      cases xs with
      | nil => exact absurd rfl hxs
      | cons y ys => rw [List.getLast?_cons_cons]
    · rw [List.dropWhile_cons_of_neg hx]

/-- The first character of a trimmed list is not whitespace. -/
theorem head?_jsTrim (l : List Char) :
    ∀ c, (jsTrim l).head? = some c → isJsSpace c = false := by
  intro c h
  unfold jsTrim at h
  rw [List.head?_reverse] at h
  have hne : (l.dropWhile isJsSpace).reverse.dropWhile isJsSpace ≠ [] := by
    intro h0
    rw [h0] at h
    simp at h
  rw [getLast?_dropWhile_isJsSpace _ hne, List.getLast?_reverse] at h
  exact head?_dropWhile_isJsSpace l c h

/-- The last character of a trimmed list is not whitespace. -/
theorem getLast?_jsTrim (l : List Char) :
    ∀ c, (jsTrim l).getLast? = some c → isJsSpace c = false := by
  intro c h
  unfold jsTrim at h
  rw [List.getLast?_reverse] at h
  exact head?_dropWhile_isJsSpace _ c h

/-- Trimming is idempotent. -/
theorem jsTrim_idem (l : List Char) : jsTrim (jsTrim l) = jsTrim l := by
  show (((jsTrim l).dropWhile isJsSpace).reverse.dropWhile isJsSpace).reverse = jsTrim l
  rw [dropWhile_eq_self_isJsSpace _ (head?_jsTrim l)]
  rw [dropWhile_eq_self_isJsSpace _ ?hrev]
  · exact List.reverse_reverse _
  case hrev =>
    intro c hc
    rw [List.head?_reverse] at hc
    exact getLast?_jsTrim l c hc

/-- `consHead` never yields an empty split. -/
theorem consHead_ne_nil (c : Char) (ts : List (List Char)) : consHead c ts ≠ [] := by
  cases ts <;> simp [consHead]

/-- Equation of the path splitter in the catch-all case: the head character
is no separator and does not start a CRLF pair. -/
theorem splitPathSeps_cons_default (c : Char) (rest : List Char)
    (h1 : c = ',' → False) (h2 : c = '\n' → False)
    (h3 : ∀ rest2, c = '\r' → rest = '\n' :: rest2 → False) :
    splitPathSeps (c :: rest) = consHead c (splitPathSeps rest) := by
  by_cases hc : c = '\r'
  · subst hc
    cases rest with
    | nil => simp [splitPathSeps, consHead]
    | cons d rest2 =>
      have hd : d ≠ '\n' := fun h => h3 rest2 rfl (by rw [h])
      simp [splitPathSeps, hd]
  · simp [splitPathSeps, h1, h2, hc]

/-- The path splitter always yields at least one token. -/
theorem splitPathSeps_ne_nil (a : List Char) : splitPathSeps a ≠ [] := by
  induction a using splitPathSeps.induct with
  | case1 => simp [splitPathSeps]
  | case2 rest ih => simp [splitPathSeps]
  | case3 rest ih => simp [splitPathSeps]
  | case4 rest ih => simp [splitPathSeps]
  | case5 c rest h1 h2 h3 ih =>
    rw [splitPathSeps_cons_default c rest h1 h2 h3]
    exact consHead_ne_nil c _

/-- Tokens produced by the path splitter contain no separator. -/
theorem splitPathSeps_noSep (a : List Char) :
    ∀ t ∈ splitPathSeps a, ∀ c ∈ t, c ≠ ',' ∧ c ≠ '\n' := by
  induction a using splitPathSeps.induct with
  | case1 =>
    intro t ht c hc
    simp only [splitPathSeps, List.mem_singleton] at ht
    subst ht
    simp at hc
  | case2 rest ih =>
    intro t ht c hc
    simp only [splitPathSeps, List.mem_cons] at ht
    rcases ht with rfl | ht
    · simp at hc
    · exact ih t ht c hc
  | case3 rest ih =>
    intro t ht c hc
    simp only [splitPathSeps, List.mem_cons] at ht
    rcases ht with rfl | ht
    · simp at hc
    · exact ih t ht c hc
  | case4 rest ih =>
    intro t ht c hc
    simp only [splitPathSeps, List.mem_cons] at ht
    rcases ht with rfl | ht
    · simp at hc
    · exact ih t ht c hc
  | case5 x rest h1 h2 h3 ih =>
    intro t ht c hc
    rw [splitPathSeps_cons_default x rest h1 h2 h3] at ht
    cases hsp : splitPathSeps rest with
    | nil => exact absurd hsp (splitPathSeps_ne_nil rest)
    | cons t0 ts =>
      rw [hsp] at ht
      simp only [consHead, List.mem_cons] at ht
      rcases ht with ht1 | ht2
      · subst ht1
        rcases List.mem_cons.mp hc with hcx | hc2
        · subst hcx
          exact ⟨h1, h2⟩
        · exact ih t0 (by rw [hsp]; exact List.mem_cons_self t0 ts) c hc2
      · exact ih t (by rw [hsp]; exact List.mem_cons_of_mem t0 ht2) c hc

/-- Splitting a separator-free token followed by a newline peels the token. -/
theorem splitPathSeps_append (a b : List Char)
    (h1 : ∀ c ∈ a, c ≠ ',' ∧ c ≠ '\n') (h2 : a.getLast? ≠ some '\r') :
    splitPathSeps (a ++ '\n' :: b) = a :: splitPathSeps b := by
  induction a with
  | nil => simp [splitPathSeps]
  | cons x a2 ih =>
    have hx := h1 x (List.mem_cons_self x a2)
    have heq : splitPathSeps (x :: (a2 ++ '\n' :: b)) =
        consHead x (splitPathSeps (a2 ++ '\n' :: b)) := by
      apply splitPathSeps_cons_default x _ hx.1 hx.2
      intro rest2 hxr hr
      cases a2 with
      | nil =>
        subst hxr
        exact h2 rfl
      | cons d a3 =>
        have hd := h1 d (by simp)
        have hdn : d = '\n' := by
          have := congrArg List.head? hr
          simpa using this
        exact hd.2 hdn
    have hlast2 : a2.getLast? ≠ some '\r' := by
      cases a2 with
      | nil => simp
      | cons d a3 =>
        intro hl
        exact h2 (by rw [List.getLast?_cons_cons]; exact hl)
    rw [List.cons_append, heq,
      ih (fun c hc => h1 c (List.mem_cons_of_mem x hc)) hlast2]
    simp [consHead]

/-- A separator-free list is a single token. -/
theorem splitPathSeps_noSepList (a : List Char)
    (h : ∀ c ∈ a, c ≠ ',' ∧ c ≠ '\n') : splitPathSeps a = [a] := by
  induction a with
  | nil => rfl
  | cons x a2 ih =>
    have hx := h x (List.mem_cons_self x a2)
    have heq : splitPathSeps (x :: a2) = consHead x (splitPathSeps a2) := by
      apply splitPathSeps_cons_default x a2 hx.1 hx.2
      intro rest2 hxr hr
      have hmem : '\n' ∈ a2 := by rw [hr]; simp
      exact (h '\n' (List.mem_cons_of_mem x hmem)).2 rfl
    rw [heq, ih (fun c hc => h c (List.mem_cons_of_mem x hc))]
    simp [consHead]

/-- Structure eta: rebuilding a string from its characters is the string. -/
theorem mk_data (x : String) : String.mk x.data = x := rfl

/-- A non-empty string has non-empty character data. -/
theorem data_ne_nil {x : String} (h : x ≠ "") : x.data ≠ [] := by
  intro h0
  apply h
  rw [← mk_data x, h0]

/-- A good path does not end in a carriage return (its trim is itself). -/
theorem goodPath_getLast_not_cr {x : String} (hg : GoodPath x) :
    x.data.getLast? ≠ some '\r' := by
  intro hl
  have hns := getLast?_jsTrim x.data '\r' (by rw [hg.2.1]; exact hl)
  exact absurd hns (by decide)

/-- Every entry produced by `parsePaths` is a good path. -/
theorem parsePaths_good (s : String) : ∀ x ∈ parsePaths s, GoodPath x := by
  intro x hx
  unfold parsePaths at hx
  simp only [List.mem_map, List.mem_filter] at hx
  obtain ⟨t, ⟨⟨t0, ht0, rfl⟩, htne⟩, rfl⟩ := hx
  simp only [decide_eq_true_eq] at htne
  refine ⟨?_, ?_, ?_⟩
  · intro h0
    exact htne (congrArg String.data h0)
  · show jsTrim (jsTrim t0) = jsTrim t0
    exact jsTrim_idem t0
  · intro c hc
    exact splitPathSeps_noSep s.data t0 ht0 c (mem_jsTrim hc)

/-- A good path parses back to itself. -/
theorem parsePaths_single (x : String) (h : GoodPath x) : parsePaths x = [x] := by
  unfold parsePaths
  rw [splitPathSeps_noSepList x.data h.2.2]
  simp only [List.map_cons, List.map_nil, h.2.1]
  rw [List.filter_cons_of_pos (by simpa using data_ne_nil h.1)]
  simp [mk_data]

/-- Joining good paths with newlines and re-parsing returns them verbatim. -/
theorem parsePaths_joinLines (l : List String) (h : ∀ x ∈ l, GoodPath x) :
    parsePaths (joinLines l) = l := by
  induction l with
  | nil => rfl
  | cons x l2 ih =>
    cases l2 with
    | nil =>
      show parsePaths x = [x]
      exact parsePaths_single x (h x (by simp))
    | cons y l3 =>
      have hx := h x (by simp)
      have hdata : (joinLines (x :: y :: l3)).data
          = x.data ++ '\n' :: (joinLines (y :: l3)).data := by
        show ((x ++ "\n") ++ joinLines (y :: l3)).data = _
        simp [String.data_append, List.append_assoc]
      have hsplit : parsePaths (joinLines (x :: y :: l3)) =
          (((x.data :: splitPathSeps (joinLines (y :: l3)).data).map jsTrim).filter
            (fun t => t ≠ [])).map (fun t => String.mk t) := by
        unfold parsePaths
        rw [hdata, splitPathSeps_append _ _ hx.2.2 (goodPath_getLast_not_cr hx)]
      rw [hsplit]
      simp only [List.map_cons, hx.2.1]
      rw [List.filter_cons_of_pos (by simpa using data_ne_nil hx.1)]
      simp only [List.map_cons, mk_data]
      congr 1
      exact ih fun z hz => h z (List.mem_cons_of_mem x hz)

/-- Membership is preserved by first-occurrence deduplication. -/
theorem mem_dedupFirst {a : String} {l : List String} :
    a ∈ dedupFirst l ↔ a ∈ l := by
  induction l with
  | nil => simp [dedupFirst]
  | cons x xs ih =>
    simp only [dedupFirst, List.mem_cons]
    constructor
    · rintro (rfl | hmem)
      · exact .inl rfl
      · exact .inr (ih.mp (List.mem_filter.mp hmem).1)
    · rintro (rfl | hmem)
      · exact .inl rfl
      · by_cases hax : a = x
        · exact .inl hax
        · exact .inr (List.mem_filter.mpr ⟨ih.mpr hmem, by simpa using hax⟩)

/-- First-occurrence deduplication yields no duplicates. -/
theorem nodup_dedupFirst (l : List String) : (dedupFirst l).Nodup := by
  induction l with
  | nil => simp [dedupFirst]
  | cons x xs ih =>
    simp only [dedupFirst]
    refine List.nodup_cons.mpr ⟨?_, ih.filter _⟩
    intro hx
    have := (List.mem_filter.mp hx).2
    simp at this

/-- First-occurrence deduplication is a sublist (keeps relative order). -/
theorem dedupFirst_sublist (l : List String) : List.Sublist (dedupFirst l) l := by
  induction l with
  | nil => simp [dedupFirst]
  | cons x xs ih =>
    simp only [dedupFirst]
    exact List.Sublist.cons₂ x ((List.filter_sublist _).trans ih)

/-- Deduplication commutes with filtering. -/
theorem dedupFirst_filter (p : String → Bool) (l : List String) :
    dedupFirst (l.filter p) = (dedupFirst l).filter p := by
  induction l with
  | nil => simp [dedupFirst]
  | cons x xs ih =>
    by_cases hp : p x = true
    · rw [List.filter_cons_of_pos hp]
      simp only [dedupFirst]
      rw [List.filter_cons_of_pos hp, ih]
      congr 1
      rw [List.filter_filter, List.filter_filter]
      apply List.filter_congr
      intro y _
      exact Bool.and_comm _ _
    · rw [List.filter_cons_of_neg hp]
      simp only [dedupFirst]
      rw [ih, List.filter_cons_of_neg hp, List.filter_filter]
      apply List.filter_congr
      intro y hy
      by_cases hyx : y = x
      · subst hyx
        simp [hp]
      · simp [hyx]

/-- Appending elements already present does not change the deduplication of
a duplicate-free list. -/
theorem dedupFirst_append_subset :
    ∀ (l : List String), l.Nodup → ∀ (b : List String), (∀ x ∈ b, x ∈ l) →
      dedupFirst (l ++ b) = l := by
  intro l
  induction l with
  | nil =>
    intro _ b hb
    have hbnil : b = [] :=
      List.eq_nil_iff_forall_not_mem.mpr fun a ha => by simpa using hb a ha
    simp [hbnil, dedupFirst]
  | cons x xs ih =>
    intro hl b hb
    simp only [List.cons_append, dedupFirst]
    congr 1
    rw [← dedupFirst_filter, List.append_eq, List.filter_append]
    have hxs : xs.filter (fun y => y ≠ x) = xs := by
      rw [List.filter_eq_self]
      intro a ha
      have hax : a ≠ x := by
        intro hax
        exact (List.nodup_cons.mp hl).1 (hax ▸ ha)
      simpa using hax
    rw [hxs]
    apply ih (List.nodup_cons.mp hl).2
    intro a ha
    obtain ⟨hab, hax⟩ := List.mem_filter.mp ha
    rcases List.mem_cons.mp (hb a hab) with rfl | hmem
    · simp at hax
    · exact hmem

/-- C10 counterexample: an incoming path containing a comma is re-split on
the next parse, so a second merge of the same incoming list changes the
text — `mergePathText` is not idempotent as claimed. -/
theorem mergePathText_not_idempotent :
    mergePathText (mergePathText "" ["a,b"]) ["a,b"] ≠ mergePathText "" ["a,b"] := by
  decide

/-- C10 amended: for every current text, and incoming paths that are
non-empty, trim-fixed and free of the separator characters comma and
newline, the merge equals the first-occurrence deduplication of existing
entries followed by new ones — each path once, existing first, order
preserved — and merging the same incoming list again is the identity.
(An incoming path containing a separator breaks idempotence.) -/
theorem mergePathText_merge_properties (cur : String) (inc : List String)
    (h : ∀ x ∈ inc, x ≠ "" → GoodPath x) :
    parsePaths (mergePathText cur inc) =
      dedupFirst (parsePaths cur ++ inc.filter (fun p => p ≠ "")) ∧
    (parsePaths (mergePathText cur inc)).Nodup ∧
    List.Sublist (parsePaths (mergePathText cur inc))
      (parsePaths cur ++ inc.filter (fun p => p ≠ "")) ∧
    (∀ p, p ∈ parsePaths (mergePathText cur inc) ↔
      p ∈ parsePaths cur ∨ (p ∈ inc ∧ p ≠ "")) ∧
    mergePathText (mergePathText cur inc) inc = mergePathText cur inc := by
  have hgood : ∀ x ∈ parsePaths cur ++ inc.filter (fun p => p ≠ ""), GoodPath x := by
    intro x hx
    rcases List.mem_append.mp hx with hx | hx
    · exact parsePaths_good cur x hx
    · obtain ⟨hmem, hne⟩ := List.mem_filter.mp hx
      exact h x hmem (by simpa using hne)
  have hround : parsePaths (mergePathText cur inc) =
      dedupFirst (parsePaths cur ++ inc.filter (fun p => p ≠ "")) := by
    show parsePaths
      (joinLines (dedupFirst (parsePaths cur ++ inc.filter (fun p => p ≠ "")))) = _
    exact parsePaths_joinLines _ fun x hx => hgood x (mem_dedupFirst.mp hx)
  refine ⟨hround, ?_, ?_, ?_, ?_⟩
  · rw [hround]
    exact nodup_dedupFirst _
  · rw [hround]
    exact dedupFirst_sublist _
  · intro p
    rw [hround, mem_dedupFirst, List.mem_append]
    constructor
    · rintro (hp | hp)
      · exact .inl hp
      · obtain ⟨hm, hne⟩ := List.mem_filter.mp hp
        exact .inr ⟨hm, by simpa using hne⟩
    · rintro (hp | ⟨hm, hne⟩)
      · exact .inl hp
      · exact .inr (List.mem_filter.mpr ⟨hm, by simpa using hne⟩)
  · show joinLines (dedupFirst
      (parsePaths (mergePathText cur inc) ++ inc.filter (fun p => p ≠ ""))) = _
    rw [hround,
      dedupFirst_append_subset _ (nodup_dedupFirst _) _
        fun a ha => mem_dedupFirst.mpr (List.mem_append.mpr (.inr ha))]
    rfl

/-- C10 witness: a concrete merge deduplicates and a second merge of the
same incoming paths is the identity. -/
theorem mergePathText_merge_properties_witness :
    parsePaths (mergePathText "a\nb" ["b", "c", ""]) =
      dedupFirst (parsePaths "a\nb" ++ ["b", "c", ""].filter (fun p => p ≠ "")) ∧
    mergePathText (mergePathText "a\nb" ["b", "c", ""]) ["b", "c", ""] =
      mergePathText "a\nb" ["b", "c", ""] := by
  have h := mergePathText_merge_properties "a\nb" ["b", "c", ""] (by decide)
  exact ⟨h.1, h.2.2.2.2⟩

end CFM
